import Mathlib

/-!
NablaFunctions: function packaging and execution gateway.

A shallow embedding of the Go sources `docker/docker.go`, `utils/utils.go` and
`handlers/handlers.go`.

Modelling conventions.

* A Go `string` is a list of Unicode code points (`Str`); the inputs considered
  are valid UTF-8, on which the byte-level functions `strings.Split`,
  `strings.Contains` and `strings.HasPrefix` (used here with ASCII patterns only)
  agree with their code-point-level versions.
* A Go result `(value, error)` is a pair whose error component is an
  `Option Str` (`none` is `nil`).
* Calls to the operating system, to the container engine and to the uuid
  library are external: their outcomes are supplied by an environment record,
  and every call the code makes is logged, with its arguments, in a trace.
* Handlers run one at a time; interleavings of concurrent requests are not
  modelled.
-/

namespace NablaFunctions

/-- Go strings, as lists of code points. -/
abbrev Str := List Char

/-! ## Package `strings` and `unicode` -/

/-- The function `unicode.IsSpace`: the Latin-1 cases spelled out in its source,
then the `White_Space` table. -/
def isSpace (c : Char) : Bool :=
  let n := c.toNat
  if n ≤ 0xFF then
    n = 0x09 || n = 0x0A || n = 0x0B || n = 0x0C || n = 0x0D || n = 0x20 ||
      n = 0x85 || n = 0xA0
  else
    n = 0x1680 || (0x2000 ≤ n && n ≤ 0x200A) || n = 0x2028 || n = 0x2029 ||
      n = 0x202F || n = 0x205F || n = 0x3000

/-- The function `strings.HasPrefix s p`. -/
def HasPrefix (s p : Str) : Bool :=
  match p, s with
  | [], _ => true
  | _ :: _, [] => false
  | b :: p', a :: s' => a == b && HasPrefix s' p'

/-- The function `strings.Contains s substr`: `substr` occurs at some offset of `s`. -/
def Contains (s substr : Str) : Bool :=
  match s with
  | [] => HasPrefix [] substr
  | c :: cs => HasPrefix (c :: cs) substr || Contains cs substr

/-- The loop of `strings.Split s sep` for a one-character separator: `cur` is
the piece being read. -/
def splitLoop (sep : Char) (cur : Str) : Str → List Str
  | [] => [cur]
  | c :: cs => if c = sep then cur :: splitLoop sep [] cs else splitLoop sep (cur ++ [c]) cs

/-- The function `strings.Split s sep` for a separator of one character. -/
def Split (s : Str) (sep : Char) : List Str :=
  splitLoop sep [] s

/-- The loop of `strings.FieldsFunc`: `start` is the field being read, if any
(`start >= 0` in the source). -/
def fieldsLoop (f : Char → Bool) : Option Str → Str → List Str
  | none, [] => []
  | some t, [] => [t]
  | none, c :: cs => if f c then fieldsLoop f none cs else fieldsLoop f (some [c]) cs
  | some t, c :: cs =>
    if f c then t :: fieldsLoop f none cs else fieldsLoop f (some (t ++ [c])) cs

/-- The function `strings.Fields s`: the maximal runs of non-space characters. -/
def Fields (s : Str) : List Str :=
  fieldsLoop isSpace none s

/-! ## `docker.ExtractImageID` -/

/-- The marker of the final image-write step in the build output. -/
def imageMarker : Str := "writing image sha256".toList

/-- The content-address prefix. -/
def shaPrefix : Str := "sha256:".toList

/-- The inner loop of `ExtractImageID`: the first part beginning with `sha256:`. -/
def findShaPart : List Str → Option Str
  | [] => none
  | part :: parts => if HasPrefix part shaPrefix then some part else findShaPart parts

/-- The outer loop of `ExtractImageID` over the lines of the output. -/
def scanLines : List Str → Str × Option Str
  | [] => ([], some "image ID not found".toList)
  | line :: lines =>
    if Contains line imageMarker then
      match findShaPart (Fields line) with
      | some part => (part, none)
      | none => scanLines lines
    else scanLines lines

/-- The function `ExtractImageID` of `docker/docker.go`. -/
def ExtractImageID (s : Str) : Str × Option Str :=
  scanLines (Split s '\n')

/-- A line qualifies when it contains the marker and one of its fields begins
with `sha256:`. -/
def qualifies (line : Str) : Prop :=
  Contains line imageMarker = true ∧ ∃ t ∈ Fields line, HasPrefix t shaPrefix = true

/-! ## Package `path/filepath` (Unix) -/

/-- The loop of `filepath.Ext`: scan from the end of the path; `suf` is the
part already passed. -/
def extLoop : List Char → Str → Str
  | [], _ => []
  | c :: rest, suf =>
    if c = '/' then [] else if c = '.' then c :: suf else extLoop rest (c :: suf)

/-- The function `filepath.Ext`: the suffix beginning at the final dot of the
final element of the path, empty when there is no dot. -/
def Ext (path : Str) : Str :=
  extLoop path.reverse []

/-- The function `strings.Join elems sep`. -/
def joinWith (sep : Str) : List Str → Str
  | [] => []
  | [e] => e
  | e :: e' :: es => e ++ sep ++ joinWith sep (e' :: es)

/-- The backtracking of `filepath.Clean` on a `..` element, on the reversed
output buffer: `out.w--`, then `out.w--` again while `out.w > dotdot` and the
character just dropped is not a separator. -/
def backtrack (dotdot : Nat) : List Char → List Char
  | [] => []
  | c :: rb => if rb.length > dotdot && c ≠ '/' then backtrack dotdot rb else rb

/-- One path element of the loop of `filepath.Clean`; the state is the reversed
output buffer and the index `dotdot`. -/
def cleanStep (rooted : Bool) (st : List Char × Nat) (el : Str) : List Char × Nat :=
  if el = [] then st
  else if el = ['.'] then st
  else if el = ['.', '.'] then
    if st.1.length > st.2 then (backtrack st.2 st.1, st.2)
    else if !rooted then
      let rout := '.' :: '.' :: (if st.1.length > 0 then '/' :: st.1 else st.1)
      (rout, rout.length)
    else st
  else
    let rout :=
      if (rooted && st.1.length ≠ 1) || (!rooted && st.1.length ≠ 0) then '/' :: st.1
      else st.1
    (el.reverse ++ rout, st.2)

/-- The function `filepath.Clean`, element by element. -/
def Clean (path : Str) : Str :=
  if path = [] then ['.']
  else
    let rooted := path.head? = some '/'
    let st := (Split path '/').foldl (cleanStep rooted) (if rooted then (['/'], 1) else ([], 0))
    if st.1.length = 0 then ['.'] else st.1.reverse

/-- The function `filepath.Join`: empty elements at the front are skipped, the
rest is joined with separators and cleaned. -/
def Join : List Str → Str
  | [] => []
  | e :: es => if e ≠ [] then Clean (joinWith ['/'] (e :: es)) else Join es

/-- Whether path `p` is `root` itself or a descendant of it. -/
def isUnder (root p : Str) : Bool :=
  p = root || HasPrefix p (root ++ ['/'])

/-! ## Calls to external collaborators -/

/-- A call made by the code to the operating system, the container engine or
the uuid library, with its arguments and whether it succeeded. -/
inductive Call where
  | mkdirTemp (res : Option Str)
  | create (path : Str) (ok : Bool)
  | copyUpload (path : Str) (ok : Bool)
  | mkdir (path : Str) (ok : Bool)
  | openReader (zipFile : Str) (ok : Bool)
  | mkdirAll (path : Str) (ok : Bool)
  | openFile (path : Str) (ok : Bool)
  | openEntry (name : Str) (ok : Bool)
  | copyEntry (path : Str) (ok : Bool)
  | readDir (dir : Str) (ok : Bool)
  | readFile (path : Str) (ok : Bool)
  | writeFile (path : Str) (content : Str) (ok : Bool)
  | dockerBuild (tag dir : Str) (ok : Bool)
  | dockerRun (imageId : Str) (ok : Bool)
  | uuidNew (id : Str)
  | removeAll (dir : Str) (ok : Bool)
  deriving DecidableEq, Repr

/-- Whether a call is an invocation of the container engine build. -/
def Call.isBuild : Call → Bool
  | .dockerBuild _ _ _ => true
  | _ => false

/-- Whether a call is an invocation of the container engine run. -/
def Call.isRun : Call → Bool
  | .dockerRun _ _ => true
  | _ => false

/-- The path a call creates or writes, when it succeeds in doing so. -/
def Call.written : Call → Option Str
  | .mkdirTemp (some d) => some d
  | .create p true => some p
  | .mkdir p true => some p
  | .mkdirAll p true => some p
  | .openFile p true => some p
  | .copyEntry p _ => some p
  | .writeFile p _ true => some p
  | _ => none

/-- The paths created at the request of the code and not removed since. -/
abbrev FS := List Str

/-- The effect of one call on the created paths; a successful `os.RemoveAll`
removes the directory and everything below it. -/
def fsStep (fs : FS) : Call → FS
  | .mkdirTemp (some d) => d :: fs
  | .create p true => p :: fs
  | .mkdir p true => p :: fs
  | .mkdirAll p true => p :: fs
  | .openFile p true => p :: fs
  | .writeFile p _ true => p :: fs
  | .removeAll d true => fs.filter (fun p => !isUnder d p)
  | _ => fs

/-- The effect of a trace of calls on the created paths. -/
def fsRun (fs : FS) (trace : List Call) : FS :=
  trace.foldl fsStep fs

/-! ## Package `utils` -/

/-- An entry of a directory listing (`os.DirEntry`). -/
structure DirEntry where
  name : Str
  isDir : Bool
  deriving DecidableEq, Repr

/-- An entry of the uploaded archive (`zip.File`), with the outcomes of the
operations performed on it: `os.MkdirAll`, `os.OpenFile`, `file.Open`, `io.Copy`. -/
structure ZipEntry where
  name : Str
  isDir : Bool
  mkdirAllOk : Bool := true
  openFileOk : Bool := true
  openOk : Bool := true
  copyOk : Bool := true
  deriving DecidableEq, Repr

/-- Outcomes of the external operations of one load request. -/
structure Env where
  /-- The result of `os.MkdirTemp`. -/
  mkdirTemp : Option Str
  /-- Whether `os.Create` of the upload succeeds. -/
  createOk : Bool
  /-- Whether `io.Copy` of the upload succeeds. -/
  saveCopyOk : Bool
  /-- Whether `os.Mkdir` of the extraction directory succeeds. -/
  mkdirExtractOk : Bool
  /-- The result of `zip.OpenReader`: the entries of the archive. -/
  openReader : Option (List ZipEntry)
  /-- The result of `os.ReadDir` on the extraction directory. -/
  readDir : Except Str (List DirEntry)
  /-- The result of `os.ReadFile` on a template path. -/
  readTemplate : Str → Option Str
  /-- The result of `yaml.Unmarshal`: the `Dockerfile` field of the template. -/
  unmarshal : Str → Option Str
  /-- The function `fmt.Sprintf` with one argument. -/
  sprintf : Str → Str → Str
  /-- Whether `os.WriteFile` of the Dockerfile succeeds. -/
  writeFileOk : Bool
  /-- The result of `docker build -t tag dir`: combined output, and success. -/
  dockerBuild : Str → Str → Str × Bool
  /-- The 16 bytes returned by `uuid.New`. -/
  uuid : List Nat
  /-- Whether `os.RemoveAll` succeeds. -/
  removeAllOk : Bool

/-- The function `CleanupTemporaryDirectory`: one call of `os.RemoveAll`. -/
def CleanupTemporaryDirectory (env : Env) (dir : Str) : List Call :=
  [.removeAll dir env.removeAllOk]

/-- The function `SaveZipFile`: the path of the saved file, empty on failure. -/
def SaveZipFile (env : Env) (tempDir filename : Str) : Str × List Call :=
  let filePath := Join [tempDir, filename]
  if !env.createOk then ([], [.create filePath false])
  else if !env.saveCopyOk then ([], [.create filePath true, .copyUpload filePath false])
  else (filePath, [.create filePath true, .copyUpload filePath true])

/-- The loop of `ExtractZipFile` over the entries of the archive: the error,
if any, and the calls made. -/
def extractLoop (extractDir : Str) : List ZipEntry → Option Str × List Call
  | [] => (none, [])
  | file :: files =>
    let path := Join [extractDir, file.name]
    if file.isDir then
      if !file.mkdirAllOk then (some "mkdir failed".toList, [.mkdirAll path false])
      else
        let rest := extractLoop extractDir files
        (rest.1, .mkdirAll path true :: rest.2)
    else if !file.openFileOk then (some "open failed".toList, [.openFile path false])
    else if !file.openOk then
      (some "open entry failed".toList, [.openFile path true, .openEntry file.name false])
    else if !file.copyOk then
      (some "copy failed".toList,
        [.openFile path true, .openEntry file.name true, .copyEntry path false])
    else
      let rest := extractLoop extractDir files
      (rest.1, .openFile path true :: .openEntry file.name true :: .copyEntry path true :: rest.2)

/-- The function `ExtractZipFile`: the extraction directory and the error. -/
def ExtractZipFile (env : Env) (zipFile tempDir : Str) : (Str × Option Str) × List Call :=
  let extractDir := Join [tempDir, "extracted".toList]
  if !env.mkdirExtractOk then (([], some "mkdir failed".toList), [.mkdir extractDir false])
  else
    match env.openReader with
    | none =>
      (([], some "open zip failed".toList), [.mkdir extractDir true, .openReader zipFile false])
    | some files =>
      let res := extractLoop extractDir files
      match res.1 with
      | some err => (([], some err), .mkdir extractDir true :: .openReader zipFile true :: res.2)
      | none => ((extractDir, none), .mkdir extractDir true :: .openReader zipFile true :: res.2)

/-- The loop of `DetectHandlerFile` over the listing. -/
def detectLoop : List DirEntry → Str × Str × Option Str
  | [] => ([], [], some "No handler file found".toList)
  | file :: files =>
    if file.isDir then detectLoop files
    else if Ext file.name = ".py".toList then (file.name, "python".toList, none)
    else if Ext file.name = ".go".toList then (file.name, "golang".toList, none)
    else detectLoop files

/-- The function `DetectHandlerFile`, on the result of `os.ReadDir(dir)`: file
name, language and error. -/
def DetectHandlerFile (listing : Except Str (List DirEntry)) : Str × Str × Option Str :=
  match listing with
  | .error err => ([], [], some err)
  | .ok files => detectLoop files

/-- An entry is a recognized handler file: not a directory, extension `.py` or `.go`. -/
def isHandler (e : DirEntry) : Prop :=
  e.isDir = false ∧ (Ext e.name = ".py".toList ∨ Ext e.name = ".go".toList)

/-! ## Package `docker` -/

/-- The function `LoadTemplate`: the `Dockerfile` field of the template of the
language, read from `templates/<language>.yaml`. -/
def LoadTemplate (env : Env) (language : Str) : (Option Str × Option Str) × List Call :=
  let templateFile := "templates/".toList ++ language ++ ".yaml".toList
  match env.readTemplate templateFile with
  | none => ((none, some "failed to read th template".toList), [.readFile templateFile false])
  | some data =>
    match env.unmarshal data with
    | none => ((none, some "failed to unmarshal template".toList), [.readFile templateFile true])
    | some dockerfile => ((some dockerfile, none), [.readFile templateFile true])

/-- The function `BuildDockerImage`: the identifier of the built image and the error. -/
def BuildDockerImage (env : Env) (dir language handlerFile : Str) :
    (Str × Option Str) × List Call :=
  let tpl := LoadTemplate env language
  match tpl.1.1 with
  | none => (([], some "failed to load template".toList), tpl.2)
  | some dockerfile =>
    let content0 : Str := []
    let content1 :=
      if language = "python".toList then env.sprintf dockerfile handlerFile else content0
    let dockerFileContent := if language = "golang".toList then dockerfile else content1
    let dockerFilePath := Join [dir, "Dockerfile".toList]
    if !env.writeFileOk then
      (([], some "failed to write dockerfile".toList),
        tpl.2 ++ [.writeFile dockerFilePath dockerFileContent false])
    else
      let imageTag := "NablaFunction:".toList ++ language
      let out := env.dockerBuild imageTag dir
      if !out.2 then
        (([], some "failed to build docker image".toList),
          tpl.2 ++ [.writeFile dockerFilePath dockerFileContent true,
            .dockerBuild imageTag dir false])
      else
        let ext := ExtractImageID out.1
        match ext.2 with
        | some _ =>
          (([], some "failed to extract image ID".toList),
            tpl.2 ++ [.writeFile dockerFilePath dockerFileContent true,
              .dockerBuild imageTag dir true])
        | none =>
          ((ext.1, none),
            tpl.2 ++ [.writeFile dockerFilePath dockerFileContent true,
              .dockerBuild imageTag dir true])

/-- The function `RunDockerContainer`; `run imageId` is the result of
`docker run --rm imageId`: combined output, and success. -/
def RunDockerContainer (run : Str → Str × Bool) (imageId : Str) :
    (Str × Option Str) × List Call :=
  let out := run imageId
  if !out.2 then (([], some "failed to run docker container".toList), [.dockerRun imageId false])
  else ((out.1, none), [.dockerRun imageId true])

/-! ## Package `uuid` -/

/-- A hexadecimal digit. -/
def hexDigit (n : Nat) : Char :=
  "0123456789abcdef".toList.getD (n % 16) '0'

/-- The function `hex.Encode`: two digits per byte. -/
def hexEncode : List Nat → Str
  | [] => []
  | b :: bs => hexDigit (b / 16) :: hexDigit b :: hexEncode bs

/-- The method `UUID.String`: the form `xxxxxxxx-xxxx-xxxx-xxxx-xxxxxxxxxxxx`. -/
def uuidString (u : List Nat) : Str :=
  hexEncode (u.take 4) ++ '-' :: hexEncode ((u.drop 4).take 2) ++
    '-' :: hexEncode ((u.drop 6).take 2) ++ '-' :: hexEncode ((u.drop 8).take 2) ++
    '-' :: hexEncode ((u.drop 10).take 6)

/-! ## Package `handlers` -/

/-- The registry `imageStore`, a Go `map[string]string`, as an association list
with at most one pair for each key. -/
abbrev Store := List (Str × Str)

/-- Map lookup `m[k]`. -/
def mapGet : Store → Str → Option Str
  | [], _ => none
  | (k', v) :: m, k => if k' = k then some v else mapGet m k

/-- Map assignment `m[k] = v`. -/
def mapSet (m : Store) (k v : Str) : Store :=
  (k, v) :: m.filter (fun kv => kv.1 ≠ k)

/-- An HTTP response: status code and body. -/
structure Response where
  status : Nat
  body : Str
  deriving DecidableEq, Repr

/-- The function `http.Error`. -/
def httpError (msg : String) (code : Nat) : Response :=
  ⟨code, msg.toList ++ ['\n']⟩

/-- The response of a successful load. -/
def loadedResponse (functionId imageId : Str) : Response :=
  ⟨200, "Docker Image has been build successfully for function with ID: ".toList ++
    functionId ++ " and Image ID: ".toList ++ imageId⟩

/-- The parts of a load request the handler looks at: the method, whether
the multipart form parses, whether it has the file field `code`. -/
structure LoadRequest where
  method : Str
  parseFormOk : Bool
  formFileOk : Bool
  deriving DecidableEq, Repr

/-- The body of `LoadHandler` after the working directory was created and
its cleanup deferred (lines 59 to 97). -/
def loadBody (imageStore : Store) (env : Env) (tempDir : Str) : Response × Store × List Call :=
  let saved := SaveZipFile env tempDir "function.zip".toList
  if saved.1 = [] then (httpError "Unable to save zip file" 500, imageStore, saved.2)
  else
    let extracted := ExtractZipFile env saved.1 tempDir
    match extracted.1.2 with
    | some _ => (httpError "Unable to extract zip file" 500, imageStore, saved.2 ++ extracted.2)
    | none =>
      let extractDir := extracted.1.1
      let detected := DetectHandlerFile env.readDir
      let tr1 := saved.2 ++ extracted.2 ++ [.readDir extractDir (env.readDir.toBool)]
      match detected.2.2 with
      | some _ => (httpError "Unable to get language" 400, imageStore, tr1)
      | none =>
        let built := BuildDockerImage env extractDir detected.2.1 detected.1
        match built.1.2 with
        | some _ => (httpError "Unable to build Docker image" 500, imageStore, tr1 ++ built.2)
        | none =>
          let imageId := built.1.1
          let functionId := uuidString env.uuid
          (⟨200, "Docker Image has been build successfully for function with ID: ".toList ++
              functionId ++ " and Image ID: ".toList ++ imageId⟩,
            mapSet imageStore functionId imageId,
            tr1 ++ built.2 ++ [.uuidNew functionId])

/-- The function `LoadHandler`: the response, the registry afterwards, and the
calls made; the deferred cleanup runs last on every path after the working
directory was created. -/
def LoadHandler (imageStore : Store) (r : LoadRequest) (env : Env) :
    Response × Store × List Call :=
  if r.method ≠ "POST".toList then (httpError "Method not allowed" 405, imageStore, [])
  else if !r.parseFormOk then (httpError "Unable to parse form" 400, imageStore, [])
  else if !r.formFileOk then (httpError "Unable to get the zip file" 400, imageStore, [])
  else
    match env.mkdirTemp with
    | none =>
      (httpError "Unable to create temporary directory" 500, imageStore, [.mkdirTemp none])
    | some tempDir =>
      let res := loadBody imageStore env tempDir
      (res.1, res.2.1,
        .mkdirTemp (some tempDir) :: res.2.2 ++ CleanupTemporaryDirectory env tempDir)

/-- The function `ExecuteHandler`; `functionId` is the query parameter of that
name (empty when absent). -/
def ExecuteHandler (imageStore : Store) (functionId : Str) (run : Str → Str × Bool) :
    Response × Store × List Call :=
  if functionId = [] then (httpError "Function ID is required" 400, imageStore, [])
  else
    match mapGet imageStore functionId with
    | none => (httpError "Function ID not found" 404, imageStore, [])
    | some imageId =>
      let ran := RunDockerContainer run imageId
      match ran.1.2 with
      | some _ => (httpError "Unable to run Docker container" 500, imageStore, ran.2)
      | none => (⟨200, "Output: \n ".toList ++ ran.1.1⟩, imageStore, ran.2)

/-- A request to the gateway, with the outcomes of the external operations
it triggers. -/
inductive Request where
  | load (r : LoadRequest) (env : Env)
  | execute (functionId : Str) (run : Str → Str × Bool)

/-- One handler step on the registry. -/
def handle (imageStore : Store) : Request → Response × Store × List Call
  | .load r env => LoadHandler imageStore r env
  | .execute functionId run => ExecuteHandler imageStore functionId run

/-- The registry after serving a sequence of requests, one after the other. -/
def serve (imageStore : Store) : List Request → Store
  | [] => imageStore
  | q :: qs => serve (handle imageStore q).2.1 qs

/-- The identifier a request generates, when it is a load. -/
def Request.generated : Request → Option Str
  | .load _ env => some (uuidString env.uuid)
  | .execute _ _ => none

/-! ## Sample inputs -/

/-- A build output whose second line carries the marker and the identifier. -/
def sampleBuildLog : Str :=
  "#8 exporting layers done\n#8 writing image sha256:ab12cd done\n#8 naming to nabla".toList

/-- A listing with a directory named like a handler, a text file and two handlers. -/
def sampleListing : List DirEntry :=
  [⟨"pkg.py".toList, true⟩, ⟨"readme.txt".toList, false⟩, ⟨"main.go".toList, false⟩,
    ⟨"handler.py".toList, false⟩]

/-- A container run that echoes a greeting and succeeds. -/
def sampleRun : Str → Str × Bool :=
  fun _ => ("hello".toList, true)

/-- A well-formed load request. -/
def samplePost : LoadRequest :=
  ⟨"POST".toList, true, true⟩

/-- An environment in which every external operation succeeds, for an archive
holding one Go handler. -/
def sampleEnv : Env where
  mkdirTemp := some "/tmp/zip-extract1".toList
  createOk := true
  saveCopyOk := true
  mkdirExtractOk := true
  openReader := some [⟨"main.go".toList, false, true, true, true, true⟩]
  readDir := .ok [⟨"main.go".toList, false⟩]
  readTemplate := fun _ => some "dockerfile: FROM golang".toList
  unmarshal := fun _ => some "FROM golang".toList
  sprintf := fun t _ => t
  writeFileOk := true
  dockerBuild := fun _ _ => (sampleBuildLog, true)
  uuid := [1, 2, 3, 4, 5, 6, 7, 8, 9, 10, 11, 12, 13, 14, 15, 16]
  removeAllOk := true

/-- The same environment with another uuid. -/
def sampleEnv2 : Env :=
  { sampleEnv with uuid := [16, 15, 14, 13, 12, 11, 10, 9, 8, 7, 6, 5, 4, 3, 2, 1] }

/-- An environment for an archive holding only a text file. -/
def sampleTextEnv : Env :=
  { sampleEnv with
    openReader := some [⟨"notes.txt".toList, false, true, true, true, true⟩]
    readDir := .ok [⟨"notes.txt".toList, false⟩] }

/-- An environment for an archive with one entry whose name climbs out of the
extraction directory. -/
def sampleTraversalEnv : Env :=
  { sampleEnv with
    openReader := some [⟨"../../evil.sh".toList, false, true, true, true, true⟩]
    readDir := .ok [] }

/-- Requests served between a load and a later execute: an execute of an
unknown identifier, another load, and an execute of the first function. -/
def sampleBetween : List Request :=
  [.execute "nope".toList sampleRun, .load samplePost sampleEnv2,
    .execute (uuidString sampleEnv.uuid) sampleRun]

/-- The environment of a second upload that draws the uuid of `sampleEnv` again
and whose build writes another image. -/
def sampleCollidingEnv : Env :=
  { sampleEnv with dockerBuild := fun _ _ => ("#8 writing image sha256:second done".toList, true) }

/-- A registry holding one function. -/
def sampleStore : Store :=
  [(uuidString sampleEnv.uuid, "sha256:ab12cd".toList)]

/-! ## Lemmas on `strings.Fields` and on the loops of `ExtractImageID` -/

theorem fieldsLoop_token (f : Char → Bool) (s : Str) :
    ∀ (start : Option Str), (∀ t, start = some t → t ≠ [] ∧ ∀ c ∈ t, f c = false) →
      ∀ t ∈ fieldsLoop f start s, t ≠ [] ∧ ∀ c ∈ t, f c = false := by
  induction s with
  | nil =>
    intro start hstart t ht
    cases start with
    | none => simp [fieldsLoop] at ht
    | some t0 =>
      simp only [fieldsLoop, List.mem_singleton] at ht
      subst ht
      exact hstart t rfl
  | cons c cs ih =>
    intro start hstart t ht
    cases start with
    | none =>
      by_cases hc : f c = true
      · simp only [fieldsLoop, hc, if_true] at ht
        exact ih none (by intro t h; cases h) t ht
      · simp only [fieldsLoop, hc] at ht
        refine ih (some [c]) ?_ t ht
        intro t1 h1
        cases h1
        refine ⟨by simp, ?_⟩
        intro d hd
        simp only [List.mem_singleton] at hd
        subst hd
        simpa using hc
    | some t0 =>
      by_cases hc : f c = true
      · simp only [fieldsLoop, hc, if_true, List.mem_cons] at ht
        rcases ht with ht | ht
        · subst ht
          exact hstart t rfl
        · exact ih none (by intro t h; cases h) t ht
      · simp only [fieldsLoop, hc] at ht
        refine ih (some (t0 ++ [c])) ?_ t ht
        intro t1 h1
        cases h1
        refine ⟨by simp, ?_⟩
        intro d hd
        simp only [List.mem_append, List.mem_singleton] at hd
        rcases hd with hd | hd
        · exact (hstart t0 rfl).2 d hd
        · subst hd
          simpa using hc

theorem Fields_token (line t : Str) (ht : t ∈ Fields line) :
    t ≠ [] ∧ ∀ c ∈ t, isSpace c = false :=
  fieldsLoop_token isSpace line none (by intro t h; cases h) t ht

theorem findShaPart_none (parts : List Str) :
    findShaPart parts = none ↔ ∀ t ∈ parts, HasPrefix t shaPrefix = false := by
  induction parts with
  | nil => simp [findShaPart]
  | cons p ps ih =>
    by_cases hp : HasPrefix p shaPrefix = true
    · simp [findShaPart, hp]
    · simp only [findShaPart, hp, List.mem_cons, forall_eq_or_imp]
      simp only [Bool.not_eq_true] at hp
      simp [hp, ih]

theorem findShaPart_some (parts : List Str) (t : Str) :
    findShaPart parts = some t ↔
      ∃ pre post, parts = pre ++ t :: post ∧ (∀ p ∈ pre, HasPrefix p shaPrefix = false) ∧
        HasPrefix t shaPrefix = true := by
  induction parts with
  | nil => simp [findShaPart]
  | cons p ps ih =>
    by_cases hp : HasPrefix p shaPrefix = true
    · simp only [findShaPart, hp, if_true, Option.some.injEq]
      constructor
      · rintro rfl
        exact ⟨[], ps, rfl, by simp, hp⟩
      · rintro ⟨pre, post, heq, hpre, -⟩
        cases pre with
        | nil =>
          simp only [List.nil_append, List.cons.injEq] at heq
          exact heq.1
        | cons q qs =>
          simp only [List.cons_append, List.cons.injEq] at heq
          have := hpre q (by simp)
          rw [← heq.1, hp] at this
          cases this
    · simp only [Bool.not_eq_true] at hp
      simp only [findShaPart, hp, Bool.false_eq_true, if_false, ih]
      constructor
      · rintro ⟨pre, post, heq, hpre, ht⟩
        refine ⟨p :: pre, post, by simp [heq], ?_, ht⟩
        intro q hq
        simp only [List.mem_cons] at hq
        rcases hq with rfl | hq
        · exact hp
        · exact hpre q hq
      · rintro ⟨pre, post, heq, hpre, ht⟩
        cases pre with
        | nil =>
          simp only [List.nil_append, List.cons.injEq] at heq
          rw [heq.1, ht] at hp
          cases hp
        | cons q qs =>
          simp only [List.cons_append, List.cons.injEq] at heq
          exact ⟨qs, post, heq.2, fun r hr => hpre r (by simp [hr]), ht⟩

theorem qualifies_iff (line : Str) :
    qualifies line ↔ Contains line imageMarker = true ∧ findShaPart (Fields line) ≠ none := by
  unfold qualifies
  rw [Ne, findShaPart_none]
  constructor
  · rintro ⟨hm, t, ht, hp⟩
    refine ⟨hm, fun hall => ?_⟩
    rw [hall t ht] at hp
    cases hp
  · rintro ⟨hm, hne⟩
    refine ⟨hm, ?_⟩
    by_contra hcon
    apply hne
    intro t ht
    by_contra hp
    exact hcon ⟨t, ht, by simpa using hp⟩

theorem scanLines_fail (lines : List Str) (h : ∀ l ∈ lines, ¬ qualifies l) :
    scanLines lines = ([], some "image ID not found".toList) := by
  induction lines with
  | nil => rfl
  | cons l ls ih =>
    have hl := h l (by simp)
    have hls := ih (fun l' hl' => h l' (by simp [hl']))
    rw [qualifies_iff] at hl
    by_cases hm : Contains l imageMarker = true
    · have hnone : findShaPart (Fields l) = none := by
        by_contra hne
        exact hl ⟨hm, hne⟩
      simp only [scanLines, hm, if_true, hnone]
      exact hls
    · simp only [scanLines, hm]
      exact hls

theorem scanLines_first (pre post : List Str) (line tok : Str)
    (hpre : ∀ l ∈ pre, ¬ qualifies l) (hm : Contains line imageMarker = true)
    (htok : findShaPart (Fields line) = some tok) :
    scanLines (pre ++ line :: post) = (tok, none) := by
  induction pre with
  | nil => simp [scanLines, hm, htok]
  | cons l ls ih =>
    have hl := hpre l (by simp)
    have hls := ih (fun l' hl' => hpre l' (by simp [hl']))
    rw [qualifies_iff] at hl
    by_cases hm' : Contains l imageMarker = true
    · have hnone : findShaPart (Fields l) = none := by
        by_contra hne
        exact hl ⟨hm', hne⟩
      simp only [List.cons_append, scanLines, hm', if_true, hnone]
      exact hls
    · simp only [List.cons_append, scanLines, hm']
      exact hls

/-- Every list with an element satisfying `P` splits at the first such element. -/
theorem exists_first {α : Type} (P : α → Prop) (l : List α) (h : ∃ x ∈ l, P x) :
    ∃ pre x post, l = pre ++ x :: post ∧ (∀ y ∈ pre, ¬ P y) ∧ P x := by
  induction l with
  | nil => simp at h
  | cons a as ih =>
    by_cases ha : P a
    · exact ⟨[], a, as, rfl, by simp, ha⟩
    · have h' : ∃ x ∈ as, P x := by
        rcases h with ⟨x, hx, hPx⟩
        simp only [List.mem_cons] at hx
        rcases hx with rfl | hx
        · exact absurd hPx ha
        · exact ⟨x, hx, hPx⟩
      rcases ih h' with ⟨pre, x, post, heq, hpre, hx⟩
      refine ⟨a :: pre, x, post, by simp [heq], ?_, hx⟩
      intro y hy
      simp only [List.mem_cons] at hy
      rcases hy with rfl | hy
      · exact ha
      · exact hpre y hy

/-! ## Claims on `ExtractImageID` -/

/-- C1: if some line of the build output contains the marker `writing image sha256`
and has a field beginning with `sha256:`, then `ExtractImageID` succeeds and
returns the first such field of the first such line; the identifier returned is
non-empty, has no whitespace and begins with `sha256:`. -/
theorem ExtractImageID_first_token (s : Str) (h : ∃ line ∈ Split s '\n', qualifies line) :
    ∃ pre line post tpre tok tpost,
      Split s '\n' = pre ++ line :: post ∧ (∀ l ∈ pre, ¬ qualifies l) ∧
      Contains line imageMarker = true ∧
      Fields line = tpre ++ tok :: tpost ∧ (∀ t ∈ tpre, HasPrefix t shaPrefix = false) ∧
      HasPrefix tok shaPrefix = true ∧
      ExtractImageID s = (tok, none) ∧
      tok ≠ [] ∧ (∀ c ∈ tok, isSpace c = false) := by
  rcases exists_first qualifies (Split s '\n') h with ⟨pre, line, post, heq, hpre, hline⟩
  have hq := (qualifies_iff line).1 hline
  rcases hfind : findShaPart (Fields line) with _ | tok
  · exact absurd hfind hq.2
  · rcases (findShaPart_some (Fields line) tok).1 hfind with ⟨tpre, tpost, hf, htpre, htok⟩
    have hmem : tok ∈ Fields line := by rw [hf]; simp
    have hshape := Fields_token line tok hmem
    refine ⟨pre, line, post, tpre, tok, tpost, heq, hpre, hq.1, hf, htpre, htok, ?_,
      hshape.1, hshape.2⟩
    unfold ExtractImageID
    rw [heq]
    exact scanLines_first pre post line tok hpre hq.1 hfind

/-- C6: `ExtractImageID` fails if and only if no line of the build output both
contains the marker and has a field beginning with `sha256:`; when it fails it
returns the empty string; every output with no marker line fails. -/
theorem ExtractImageID_fails_iff (s : Str) :
    ((ExtractImageID s).2 ≠ none ↔ ¬ ∃ line ∈ Split s '\n', qualifies line) ∧
    ((ExtractImageID s).2 ≠ none → (ExtractImageID s).1 = []) ∧
    ((∀ line ∈ Split s '\n', Contains line imageMarker = false) →
      ExtractImageID s = ([], some "image ID not found".toList)) := by
  have hfail : (¬ ∃ line ∈ Split s '\n', qualifies line) →
      ExtractImageID s = ([], some "image ID not found".toList) := by
    intro hno
    exact scanLines_fail (Split s '\n') (fun l hl hq => hno ⟨l, hl, hq⟩)
  have hiff : (ExtractImageID s).2 ≠ none ↔ ¬ ∃ line ∈ Split s '\n', qualifies line := by
    constructor
    · intro herr hex
      rcases exists_first qualifies (Split s '\n') hex with ⟨pre, line, post, heq, hpre, hline⟩
      have hq := (qualifies_iff line).1 hline
      rcases hfind : findShaPart (Fields line) with _ | tok
      · exact absurd hfind hq.2
      · have hres : ExtractImageID s = (tok, none) := by
          unfold ExtractImageID
          rw [heq]
          exact scanLines_first pre post line tok hpre hq.1 hfind
        rw [hres] at herr
        exact herr rfl
    · intro hno
      rw [hfail hno]
      simp
  refine ⟨hiff, ?_, ?_⟩
  · intro herr
    rw [hfail (hiff.1 herr)]
  · intro hnom
    apply hfail
    rintro ⟨l, hl, hq⟩
    have hm := hq.1
    rw [hnom l hl] at hm
    cases hm

theorem ExtractImageID_first_token_witness :
    (∃ line ∈ Split sampleBuildLog '\n', qualifies line) ∧
    ∃ pre line post tpre tok tpost,
      Split sampleBuildLog '\n' = pre ++ line :: post ∧ (∀ l ∈ pre, ¬ qualifies l) ∧
      Contains line imageMarker = true ∧
      Fields line = tpre ++ tok :: tpost ∧ (∀ t ∈ tpre, HasPrefix t shaPrefix = false) ∧
      HasPrefix tok shaPrefix = true ∧
      ExtractImageID sampleBuildLog = (tok, none) ∧
      tok ≠ [] ∧ (∀ c ∈ tok, isSpace c = false) :=
  have h : ∃ line ∈ Split sampleBuildLog '\n', qualifies line :=
    ⟨"#8 writing image sha256:ab12cd done".toList, by decide, by decide,
      "sha256:ab12cd".toList, by decide, by decide⟩
  ⟨h, ExtractImageID_first_token sampleBuildLog h⟩

/-! ## Claims on `DetectHandlerFile` -/

theorem detectLoop_fail (files : List DirEntry) (h : ∀ e ∈ files, ¬ isHandler e) :
    detectLoop files = ([], [], some "No handler file found".toList) := by
  induction files with
  | nil => rfl
  | cons f fs ih =>
    have hf := h f (by simp)
    have hfs := ih (fun e he => h e (by simp [he]))
    unfold isHandler at hf
    by_cases hd : f.isDir = true
    · simp only [detectLoop, hd, if_true]
      exact hfs
    · simp only [Bool.not_eq_true] at hd
      have hpy : ¬ Ext f.name = ".py".toList := fun hx => hf ⟨hd, Or.inl hx⟩
      have hgo : ¬ Ext f.name = ".go".toList := fun hx => hf ⟨hd, Or.inr hx⟩
      simp only [detectLoop, hd, Bool.false_eq_true, if_false, hpy, hgo]
      exact hfs

theorem detectLoop_first (pre post : List DirEntry) (e : DirEntry)
    (hpre : ∀ e' ∈ pre, ¬ isHandler e') (he : isHandler e) :
    (Ext e.name = ".py".toList ∧
        detectLoop (pre ++ e :: post) = (e.name, "python".toList, none)) ∨
      (Ext e.name = ".go".toList ∧
        detectLoop (pre ++ e :: post) = (e.name, "golang".toList, none)) := by
  induction pre with
  | nil =>
    rcases he with ⟨hd, hpy | hgo⟩
    · left
      exact ⟨hpy, by simp [detectLoop, hd, hpy]⟩
    · right
      have hne : ¬ Ext e.name = ".py".toList := by
        rw [hgo]
        decide
      exact ⟨hgo, by simp [detectLoop, hd, hne, hgo]⟩
  | cons f fs ih =>
    have hf := hpre f (by simp)
    have hfs := ih (fun e' he' => hpre e' (by simp [he']))
    unfold isHandler at hf
    by_cases hd : f.isDir = true
    · simp only [List.cons_append, detectLoop, hd, if_true]
      exact hfs
    · simp only [Bool.not_eq_true] at hd
      have hpy : ¬ Ext f.name = ".py".toList := fun hx => hf ⟨hd, Or.inl hx⟩
      have hgo : ¬ Ext f.name = ".go".toList := fun hx => hf ⟨hd, Or.inr hx⟩
      simp only [List.cons_append, detectLoop, hd, Bool.false_eq_true, if_false, hpy, hgo]
      exact hfs

/-- C2: if the listing has a non-directory entry with extension `.py` or `.go`,
`DetectHandlerFile` returns, with no error, the name of the first such entry in
listing order, with the tag `python` for `.py` and `golang` for `.go`; the entry
returned is not a directory, and directories before it are passed over whatever
their names. -/
theorem DetectHandlerFile_first_match (files : List DirEntry)
    (h : ∃ e ∈ files, isHandler e) :
    ∃ pre e post, files = pre ++ e :: post ∧ (∀ e' ∈ pre, ¬ isHandler e') ∧
      e.isDir = false ∧
      ((Ext e.name = ".py".toList ∧
          DetectHandlerFile (.ok files) = (e.name, "python".toList, none)) ∨
        (Ext e.name = ".go".toList ∧
          DetectHandlerFile (.ok files) = (e.name, "golang".toList, none))) := by
  rcases exists_first isHandler files h with ⟨pre, e, post, heq, hpre, he⟩
  refine ⟨pre, e, post, heq, hpre, he.1, ?_⟩
  have := detectLoop_first pre post e hpre he
  simpa only [DetectHandlerFile, heq] using this

theorem DetectHandlerFile_first_match_witness :
    (∃ e ∈ sampleListing, isHandler e) ∧
    ∃ pre e post, sampleListing = pre ++ e :: post ∧ (∀ e' ∈ pre, ¬ isHandler e') ∧
      e.isDir = false ∧
      ((Ext e.name = ".py".toList ∧
          DetectHandlerFile (.ok sampleListing) = (e.name, "python".toList, none)) ∨
        (Ext e.name = ".go".toList ∧
          DetectHandlerFile (.ok sampleListing) = (e.name, "golang".toList, none))) :=
  have h : ∃ e ∈ sampleListing, isHandler e :=
    ⟨⟨"main.go".toList, false⟩, by decide, rfl, Or.inr (by decide)⟩
  ⟨h, DetectHandlerFile_first_match sampleListing h⟩

/-- C7: on a listing that was read, `DetectHandlerFile` fails if and only if the
listing has no non-directory entry with extension `.py` or `.go`, and when it
fails the file name and the language tag it returns are empty. -/
theorem DetectHandlerFile_fails_iff (files : List DirEntry) :
    ((DetectHandlerFile (.ok files)).2.2 ≠ none ↔ ¬ ∃ e ∈ files, isHandler e) ∧
    ((DetectHandlerFile (.ok files)).2.2 ≠ none →
      (DetectHandlerFile (.ok files)).1 = [] ∧ (DetectHandlerFile (.ok files)).2.1 = []) := by
  have hfail : (¬ ∃ e ∈ files, isHandler e) →
      DetectHandlerFile (.ok files) = ([], [], some "No handler file found".toList) :=
    fun hno => detectLoop_fail files (fun e he hh => hno ⟨e, he, hh⟩)
  have hiff : (DetectHandlerFile (.ok files)).2.2 ≠ none ↔ ¬ ∃ e ∈ files, isHandler e := by
    constructor
    · intro herr hex
      rcases exists_first isHandler files hex with ⟨pre, e, post, heq, hpre, he⟩
      rcases detectLoop_first pre post e hpre he with ⟨_, hres⟩ | ⟨_, hres⟩ <;>
      · rw [heq] at herr
        simp only [DetectHandlerFile, hres] at herr
        exact herr rfl
    · intro hno
      rw [hfail hno]
      simp
  refine ⟨hiff, ?_⟩
  intro herr
  rw [hfail (hiff.1 herr)]
  exact ⟨rfl, rfl⟩

/-! ## Lemmas on the registry -/

theorem mapGet_filter_ne (m : Store) (k k' : Str) (h : k' ≠ k) :
    mapGet (m.filter (fun kv => kv.1 ≠ k)) k' = mapGet m k' := by
  induction m with
  | nil => rfl
  | cons a m ih =>
    rcases a with ⟨x, v⟩
    by_cases hx : x = k
    · have hxk : ¬ x = k' := fun e => h (e.symm.trans hx)
      rw [List.filter_cons_of_neg (by simpa using hx)]
      simp only [mapGet, hxk, if_false]
      exact ih
    · rw [List.filter_cons_of_pos (by simpa using hx)]
      by_cases hxk : x = k'
      · simp only [mapGet, hxk, if_true]
      · simp only [mapGet, hxk, if_false]
        exact ih

theorem mapGet_mapSet_same (m : Store) (k v : Str) : mapGet (mapSet m k v) k = some v := by
  simp [mapSet, mapGet]

theorem mapGet_mapSet_ne (m : Store) (k v k' : Str) (h : k' ≠ k) :
    mapGet (mapSet m k v) k' = mapGet m k' := by
  have hk : ¬ k = k' := fun e => h e.symm
  simp only [mapSet, mapGet, hk, if_false]
  exact mapGet_filter_ne m k k' h

theorem mapSet_length (m : Store) (k v : Str) : (mapSet m k v).length ≤ m.length + 1 := by
  simp only [mapSet, List.length_cons]
  exact Nat.succ_le_succ (List.length_filter_le _ _)

theorem uuidString_ne_nil (u : List Nat) : uuidString u ≠ [] := by
  simp [uuidString]

/-! ## Lemmas on the handlers -/

theorem ExecuteHandler_store (imageStore : Store) (functionId : Str) (run : Str → Str × Bool) :
    (ExecuteHandler imageStore functionId run).2.1 = imageStore := by
  unfold ExecuteHandler
  split
  · rfl
  · split
    · rfl
    · dsimp only
      split <;> rfl

theorem BuildDockerImage_ok (env : Env) (dir language handlerFile : Str)
    (h : (BuildDockerImage env dir language handlerFile).1.2 = none) :
    ∃ tag, Call.dockerBuild tag dir true ∈ (BuildDockerImage env dir language handlerFile).2 ∧
      ExtractImageID (env.dockerBuild tag dir).1 =
        ((BuildDockerImage env dir language handlerFile).1.1, none) := by
  unfold BuildDockerImage at h ⊢
  dsimp only at h ⊢
  split at h
  · cases h
  · rename_i dockerfile htpl
    split at h
    · cases h
    · rename_i hw
      split at h
      · cases h
      · rename_i hb
        split at h
        · cases h
        · rename_i hext
          rw [if_neg hw, if_neg hb]
          refine ⟨"NablaFunction:".toList ++ language, by simp, ?_⟩
          exact Prod.ext rfl hext

theorem loadBody_cases (imageStore : Store) (env : Env) (tempDir : Str) :
    ((loadBody imageStore env tempDir).1.status ≠ 200 ∧
        (loadBody imageStore env tempDir).2.1 = imageStore) ∨
      ∃ imageId tag dir,
        Call.dockerBuild tag dir true ∈ (loadBody imageStore env tempDir).2.2 ∧
        ExtractImageID (env.dockerBuild tag dir).1 = (imageId, none) ∧
        (loadBody imageStore env tempDir).1 = loadedResponse (uuidString env.uuid) imageId ∧
        (loadBody imageStore env tempDir).2.1 =
          mapSet imageStore (uuidString env.uuid) imageId := by
  unfold loadBody
  dsimp only
  split
  · left
    exact ⟨by simp [httpError], rfl⟩
  · split
    · left
      exact ⟨by simp [httpError], rfl⟩
    · split
      · left
        exact ⟨by simp [httpError], rfl⟩
      · split
        · left
          exact ⟨by simp [httpError], rfl⟩
        · rename_i hbuilt
          right
          rcases BuildDockerImage_ok env _ _ _ hbuilt with ⟨tag, hmem, hext⟩
          exact ⟨_, tag, _, List.mem_append_left _ (List.mem_append_right _ hmem), hext, rfl, rfl⟩

theorem LoadHandler_cases (imageStore : Store) (r : LoadRequest) (env : Env) :
    ((LoadHandler imageStore r env).1.status ≠ 200 ∧
        (LoadHandler imageStore r env).2.1 = imageStore) ∨
      ∃ imageId tag dir,
        Call.dockerBuild tag dir true ∈ (LoadHandler imageStore r env).2.2 ∧
        ExtractImageID (env.dockerBuild tag dir).1 = (imageId, none) ∧
        (LoadHandler imageStore r env).1 = loadedResponse (uuidString env.uuid) imageId ∧
        (LoadHandler imageStore r env).2.1 =
          mapSet imageStore (uuidString env.uuid) imageId := by
  unfold LoadHandler
  split
  · left
    exact ⟨by simp [httpError], rfl⟩
  · split
    · left
      exact ⟨by simp [httpError], rfl⟩
    · split
      · left
        exact ⟨by simp [httpError], rfl⟩
      · split
        · left
          exact ⟨by simp [httpError], rfl⟩
        · rename_i tempDir htmp
          dsimp only
          rcases loadBody_cases imageStore env tempDir with hfail | ⟨i, tag, dir, hmem, hext, hr, hs⟩
          · left
            exact hfail
          · right
            exact ⟨i, tag, dir,
              List.mem_cons_of_mem _ (List.mem_append_left _ hmem), hext, hr, hs⟩

theorem handle_preserves (imageStore : Store) (q : Request) (k v : Str)
    (hk : mapGet imageStore k = some v) (hne : q.generated ≠ some k) :
    mapGet (handle imageStore q).2.1 k = some v := by
  cases q with
  | execute functionId run =>
    simp only [handle, ExecuteHandler_store]
    exact hk
  | load r env =>
    simp only [handle]
    rcases LoadHandler_cases imageStore r env with ⟨_, hs⟩ | ⟨i, _, _, _, _, _, hs⟩
    · rw [hs]
      exact hk
    · rw [hs, mapGet_mapSet_ne]
      · exact hk
      · intro e
        apply hne
        simp [Request.generated, e]

theorem serve_preserves (qs : List Request) :
    ∀ (imageStore : Store) (k v : Str), mapGet imageStore k = some v →
      (∀ q ∈ qs, q.generated ≠ some k) → mapGet (serve imageStore qs) k = some v := by
  induction qs with
  | nil =>
    intro imageStore k v hk _
    exact hk
  | cons q qs ih =>
    intro imageStore k v hk hne
    simp only [serve]
    apply ih
    · exact handle_preserves imageStore q k v hk (hne q (by simp))
    · intro q' hq'
      exact hne q' (by simp [hq'])

theorem cleanResult_ne_nil (rout : List Char) :
    (if rout.length = 0 then ['.'] else rout.reverse) ≠ [] := by
  by_cases hlen : rout.length = 0
  · simp [hlen]
  · simp only [hlen, if_false]
    intro hrev
    apply hlen
    rw [List.reverse_eq_nil_iff] at hrev
    rw [hrev]
    rfl

theorem Clean_ne_nil (path : Str) : Clean path ≠ [] := by
  unfold Clean
  split
  · simp
  · exact cleanResult_ne_nil _

theorem Join_pair_ne_nil (dir name : Str) (hname : name ≠ []) : Join [dir, name] ≠ [] := by
  by_cases hd : dir = []
  · simp only [Join, hd, ne_eq, not_true_eq_false, if_false, hname, not_false_eq_true, if_true]
    exact Clean_ne_nil _
  · simp only [Join, ne_eq, hd, not_false_eq_true, if_true]
    exact Clean_ne_nil _

theorem SaveZipFile_no_build (env : Env) (tempDir filename : Str) :
    ∀ c ∈ (SaveZipFile env tempDir filename).2, c.isBuild = false := by
  unfold SaveZipFile
  dsimp only
  split
  · simp [Call.isBuild]
  · split <;> simp [Call.isBuild]

theorem extractLoop_no_build (extractDir : Str) (files : List ZipEntry) :
    ∀ c ∈ (extractLoop extractDir files).2, c.isBuild = false := by
  induction files with
  | nil => simp [extractLoop]
  | cons file files ih =>
    unfold extractLoop
    dsimp only
    split
    · split
      · simp [Call.isBuild]
      · intro c hc
        simp only [List.mem_cons] at hc
        rcases hc with rfl | hc
        · rfl
        · exact ih c hc
    · split
      · simp [Call.isBuild]
      · split
        · simp [Call.isBuild]
        · split
          · simp [Call.isBuild]
          · intro c hc
            simp only [List.mem_cons] at hc
            rcases hc with rfl | rfl | rfl | hc
            · rfl
            · rfl
            · rfl
            · exact ih c hc

theorem ExtractZipFile_no_build (env : Env) (zipFile tempDir : Str) :
    ∀ c ∈ (ExtractZipFile env zipFile tempDir).2, c.isBuild = false := by
  unfold ExtractZipFile
  dsimp only
  split
  · simp [Call.isBuild]
  · split
    · simp [Call.isBuild]
    · split <;>
      · intro c hc
        simp only [List.mem_cons] at hc
        rcases hc with rfl | rfl | hc
        · rfl
        · rfl
        · exact extractLoop_no_build _ _ c hc

theorem loadBody_no_build (imageStore : Store) (env : Env) (tempDir : Str)
    (hdet : (DetectHandlerFile env.readDir).2.2 ≠ none) :
    ∀ c ∈ (loadBody imageStore env tempDir).2.2, c.isBuild = false := by
  unfold loadBody
  dsimp only
  split
  · exact SaveZipFile_no_build env tempDir _
  · split
    · intro c hc
      simp only [List.mem_append] at hc
      rcases hc with hc | hc
      · exact SaveZipFile_no_build env tempDir _ c hc
      · exact ExtractZipFile_no_build env _ _ c hc
    · split
      · intro c hc
        simp only [List.mem_append, List.mem_singleton] at hc
        rcases hc with (hc | hc) | rfl
        · exact SaveZipFile_no_build env tempDir _ c hc
        · exact ExtractZipFile_no_build env _ _ c hc
        · rfl
      · rename_i hnone
        exact absurd hnone hdet

theorem fsRun_append (fs : FS) (tr1 tr2 : List Call) :
    fsRun fs (tr1 ++ tr2) = fsRun (fsRun fs tr1) tr2 := by
  simp [fsRun, List.foldl_append]

/-! ## Claims on `ExecuteHandler` and `LoadHandler` -/

/-- C3, as stated, fails on the empty identifier: it is bound to nothing, and
`ExecuteHandler` answers 400 Bad Request, not 404. -/
theorem ExecuteHandler_empty_id_is_400 :
    mapGet [] [] = none ∧
      (ExecuteHandler [] [] sampleRun).1 = httpError "Function ID is required" 400 ∧
      (ExecuteHandler [] [] sampleRun).1.status ≠ 404 := by
  decide

/-- C3, amended: for every registry state and every identifier not bound in
`imageStore`, `ExecuteHandler` leaves the registry as it is and makes no call at
all, so the container run is not invoked; it answers 404 Not Found when the
identifier is non-empty and 400 Bad Request when it is empty. -/
theorem ExecuteHandler_unbound (imageStore : Store) (functionId : Str)
    (run : Str → Str × Bool) (hunbound : mapGet imageStore functionId = none) :
    ExecuteHandler imageStore functionId run =
        (if functionId = [] then httpError "Function ID is required" 400
          else httpError "Function ID not found" 404, imageStore, []) ∧
      (functionId ≠ [] → (ExecuteHandler imageStore functionId run).1.status = 404) ∧
      ∀ c ∈ (ExecuteHandler imageStore functionId run).2.2, c.isRun = false := by
  have heq : ExecuteHandler imageStore functionId run =
      (if functionId = [] then httpError "Function ID is required" 400
        else httpError "Function ID not found" 404, imageStore, []) := by
    unfold ExecuteHandler
    by_cases hid : functionId = []
    · simp only [hid, if_true]
    · simp only [hid, if_false, hunbound]
  refine ⟨heq, ?_, ?_⟩
  · intro hid
    rw [heq]
    simp [hid, httpError]
  · rw [heq]
    simp

theorem ExecuteHandler_unbound_witness :
    mapGet [("f1".toList, "sha256:ab".toList)] "f2".toList = none ∧
      (ExecuteHandler [("f1".toList, "sha256:ab".toList)] "f2".toList sampleRun =
          (if "f2".toList = [] then httpError "Function ID is required" 400
            else httpError "Function ID not found" 404,
            [("f1".toList, "sha256:ab".toList)], []) ∧
        ("f2".toList ≠ [] →
          (ExecuteHandler [("f1".toList, "sha256:ab".toList)] "f2".toList sampleRun).1.status
            = 404) ∧
        ∀ c ∈ (ExecuteHandler [("f1".toList, "sha256:ab".toList)] "f2".toList sampleRun).2.2,
          c.isRun = false) :=
  ⟨by decide,
    ExecuteHandler_unbound [("f1".toList, "sha256:ab".toList)] "f2".toList sampleRun (by decide)⟩

/-- C4, as stated, fails when a load in between generates the identifier `f`
again: the first load answers 200 and binds `f` to `sha256:ab12cd`; after a
second load with the same uuid, `f` is bound to `sha256:second`, and the execute
of `f` passes that image, not the first one, to `RunDockerContainer`. -/
theorem load_execute_rebound_by_same_uuid :
    (LoadHandler [] samplePost sampleEnv).1 =
        loadedResponse (uuidString sampleEnv.uuid) "sha256:ab12cd".toList ∧
      mapGet (LoadHandler [] samplePost sampleEnv).2.1 (uuidString sampleEnv.uuid) =
        some "sha256:ab12cd".toList ∧
      mapGet (serve (LoadHandler [] samplePost sampleEnv).2.1
          [.load samplePost sampleCollidingEnv]) (uuidString sampleEnv.uuid) =
        some "sha256:second".toList ∧
      (ExecuteHandler (serve (LoadHandler [] samplePost sampleEnv).2.1
          [.load samplePost sampleCollidingEnv]) (uuidString sampleEnv.uuid) sampleRun).2.2 =
        [.dockerRun "sha256:second".toList true] ∧
      (ExecuteHandler (serve (LoadHandler [] samplePost sampleEnv).2.1
          [.load samplePost sampleCollidingEnv]) (uuidString sampleEnv.uuid) sampleRun).2.2 ≠
        [.dockerRun "sha256:ab12cd".toList true] := by
  decide

/-- C4, amended: after a load that answered 200, having generated identifier `f`
and registered under it the image `i` extracted from the output of its build,
every later `ExecuteHandler` request for `f` finds the binding (it never answers
404), passes exactly `i` to `RunDockerContainer`, and answers 200 with the
captured output when the run succeeds, whatever requests were served in between,
provided no load in between generated the identifier `f` again. -/
theorem load_execute_round_trip (imageStore : Store) (r : LoadRequest) (env : Env)
    (hloaded : (LoadHandler imageStore r env).1.status = 200)
    (between : List Request)
    (hfresh : ∀ q ∈ between, q.generated ≠ some (uuidString env.uuid))
    (run : Str → Str × Bool) :
    ∃ i tag dir,
      Call.dockerBuild tag dir true ∈ (LoadHandler imageStore r env).2.2 ∧
      ExtractImageID (env.dockerBuild tag dir).1 = (i, none) ∧
      (LoadHandler imageStore r env).1 = loadedResponse (uuidString env.uuid) i ∧
      mapGet (serve (LoadHandler imageStore r env).2.1 between) (uuidString env.uuid) = some i ∧
      (ExecuteHandler (serve (LoadHandler imageStore r env).2.1 between)
          (uuidString env.uuid) run).1.status ≠ 404 ∧
      (ExecuteHandler (serve (LoadHandler imageStore r env).2.1 between)
          (uuidString env.uuid) run).2.2 = [.dockerRun i (run i).2] ∧
      ((run i).2 = true →
        (ExecuteHandler (serve (LoadHandler imageStore r env).2.1 between)
          (uuidString env.uuid) run).1 = ⟨200, "Output: \n ".toList ++ (run i).1⟩) := by
  rcases LoadHandler_cases imageStore r env with ⟨hne, _⟩ | ⟨i, tag, dir, hmem, hext, hr, hs⟩
  · exact absurd hloaded hne
  · have hget : mapGet (serve (LoadHandler imageStore r env).2.1 between)
        (uuidString env.uuid) = some i := by
      apply serve_preserves between _ _ _ _ hfresh
      rw [hs]
      exact mapGet_mapSet_same _ _ _
    have hid : uuidString env.uuid ≠ [] := uuidString_ne_nil env.uuid
    refine ⟨i, tag, dir, hmem, hext, hr, hget, ?_, ?_, ?_⟩
    · unfold ExecuteHandler
      simp only [hid, if_false, hget, RunDockerContainer]
      by_cases hrun : (run i).2 = true <;> simp [hrun, httpError]
    · unfold ExecuteHandler
      simp only [hid, if_false, hget, RunDockerContainer]
      by_cases hrun : (run i).2 = true <;> simp [hrun]
    · intro hrun
      unfold ExecuteHandler
      simp only [hid, if_false, hget, RunDockerContainer]
      simp [hrun]

theorem load_execute_round_trip_witness :
    (LoadHandler [] samplePost sampleEnv).1.status = 200 ∧
      (∀ q ∈ sampleBetween, q.generated ≠ some (uuidString sampleEnv.uuid)) ∧
      ∃ i tag dir,
        Call.dockerBuild tag dir true ∈ (LoadHandler [] samplePost sampleEnv).2.2 ∧
        ExtractImageID (sampleEnv.dockerBuild tag dir).1 = (i, none) ∧
        (LoadHandler [] samplePost sampleEnv).1 = loadedResponse (uuidString sampleEnv.uuid) i ∧
        mapGet (serve (LoadHandler [] samplePost sampleEnv).2.1 sampleBetween)
          (uuidString sampleEnv.uuid) = some i ∧
        (ExecuteHandler (serve (LoadHandler [] samplePost sampleEnv).2.1 sampleBetween)
            (uuidString sampleEnv.uuid) sampleRun).1.status ≠ 404 ∧
        (ExecuteHandler (serve (LoadHandler [] samplePost sampleEnv).2.1 sampleBetween)
            (uuidString sampleEnv.uuid) sampleRun).2.2 = [.dockerRun i (sampleRun i).2] ∧
        ((sampleRun i).2 = true →
          (ExecuteHandler (serve (LoadHandler [] samplePost sampleEnv).2.1 sampleBetween)
            (uuidString sampleEnv.uuid) sampleRun).1 =
              ⟨200, "Output: \n ".toList ++ (sampleRun i).1⟩) :=
  have hloaded : (LoadHandler [] samplePost sampleEnv).1.status = 200 := by decide
  have hfresh : ∀ q ∈ sampleBetween, q.generated ≠ some (uuidString sampleEnv.uuid) := by
    intro q hq
    simp only [sampleBetween, List.mem_cons, List.mem_singleton, List.not_mem_nil,
      or_false] at hq
    rcases hq with rfl | rfl | rfl <;> decide
  ⟨hloaded, hfresh,
    load_execute_round_trip [] samplePost sampleEnv hloaded sampleBetween hfresh sampleRun⟩

/-- C5: when the listing of the extracted directory has no recognized entry-point
file, `LoadHandler` leaves the registry exactly as it was and invokes no image
build; and when the request got as far as the listing (a POST whose form and
file were read, whose working directory was created, whose archive was saved and
extracted), it answers 400 Bad Request. -/
theorem LoadHandler_no_handler (imageStore : Store) (r : LoadRequest) (env : Env)
    (files : List DirEntry) (hlist : env.readDir = .ok files)
    (hno : ¬ ∃ e ∈ files, isHandler e) :
    (LoadHandler imageStore r env).2.1 = imageStore ∧
      (∀ c ∈ (LoadHandler imageStore r env).2.2, c.isBuild = false) ∧
      (r.method = "POST".toList → r.parseFormOk = true → r.formFileOk = true →
        ∀ tempDir, env.mkdirTemp = some tempDir → env.createOk = true →
          env.saveCopyOk = true →
          (ExtractZipFile env (Join [tempDir, "function.zip".toList]) tempDir).1.2 = none →
          (LoadHandler imageStore r env).1 = httpError "Unable to get language" 400) := by
  have hdet : (DetectHandlerFile env.readDir).2.2 ≠ none := by
    rw [hlist]
    simp only [DetectHandlerFile]
    rw [detectLoop_fail files (fun e he hh => hno ⟨e, he, hh⟩)]
    simp
  refine ⟨?_, ?_, ?_⟩
  · unfold LoadHandler
    split
    · rfl
    · split
      · rfl
      · split
        · rfl
        · split
          · rfl
          · rename_i tempDir htmp
            dsimp only
            unfold loadBody
            dsimp only
            split
            · rfl
            · split
              · rfl
              · split
                · rfl
                · rename_i hnone
                  exact absurd hnone hdet
  · unfold LoadHandler
    split
    · simp
    · split
      · simp
      · split
        · simp
        · split
          · simp [Call.isBuild]
          · rename_i tempDir htmp
            dsimp only
            intro c hc
            simp only [List.mem_cons, List.mem_append, CleanupTemporaryDirectory,
              List.not_mem_nil, or_false] at hc
            rcases hc with (rfl | hc) | rfl
            · rfl
            · exact loadBody_no_build imageStore env tempDir hdet c hc
            · rfl
  · intro hm hp hf tempDir htmp hcreate hcopy hext
    have hsaved : SaveZipFile env tempDir "function.zip".toList =
        (Join [tempDir, "function.zip".toList],
          [.create (Join [tempDir, "function.zip".toList]) true,
            .copyUpload (Join [tempDir, "function.zip".toList]) true]) := by
      simp [SaveZipFile, hcreate, hcopy]
    have hne : Join [tempDir, "function.zip".toList] ≠ [] :=
      Join_pair_ne_nil tempDir _ (by decide)
    unfold LoadHandler
    simp only [hm, hp, hf, htmp, ne_eq, not_true_eq_false, if_false, Bool.not_true,
      Bool.false_eq_true]
    unfold loadBody
    simp only [hsaved, hne, if_false, hext]
    split
    · rfl
    · rename_i hnone
      exact absurd hnone hdet

theorem LoadHandler_no_handler_witness :
    sampleTextEnv.readDir = .ok [⟨"notes.txt".toList, false⟩] ∧
      (¬ ∃ e ∈ [(⟨"notes.txt".toList, false⟩ : DirEntry)], isHandler e) ∧
      ((LoadHandler sampleStore samplePost sampleTextEnv).2.1 = sampleStore ∧
        (∀ c ∈ (LoadHandler sampleStore samplePost sampleTextEnv).2.2, c.isBuild = false) ∧
        (samplePost.method = "POST".toList → samplePost.parseFormOk = true →
          samplePost.formFileOk = true →
          ∀ tempDir, sampleTextEnv.mkdirTemp = some tempDir → sampleTextEnv.createOk = true →
            sampleTextEnv.saveCopyOk = true →
            (ExtractZipFile sampleTextEnv (Join [tempDir, "function.zip".toList])
              tempDir).1.2 = none →
            (LoadHandler sampleStore samplePost sampleTextEnv).1 =
              httpError "Unable to get language" 400)) :=
  have hno : ¬ ∃ e ∈ [(⟨"notes.txt".toList, false⟩ : DirEntry)], isHandler e := by
    rintro ⟨e, he, -, hext⟩
    simp only [List.mem_singleton] at he
    subst he
    revert hext
    decide
  ⟨rfl, hno, LoadHandler_no_handler sampleStore samplePost sampleTextEnv _ rfl hno⟩

/-- C8: on every handler step, when the identifier a load generates is fresh
(not bound before the step), every identifier bound in `imageStore` before the
step is bound to the same image after it; `ExecuteHandler` never changes the
registry; a `LoadHandler` request adds at most one binding, under the identifier
it generated. -/
theorem registry_step_invariant (imageStore : Store) (q : Request)
    (hfresh : ∀ id, q.generated = some id → mapGet imageStore id = none) :
    (∀ k v, mapGet imageStore k = some v → mapGet (handle imageStore q).2.1 k = some v) ∧
      (∀ functionId run, (ExecuteHandler imageStore functionId run).2.1 = imageStore) ∧
      (∀ r env, (LoadHandler imageStore r env).2.1.length ≤ imageStore.length + 1 ∧
        ∀ k, mapGet (LoadHandler imageStore r env).2.1 k ≠ none →
          mapGet imageStore k ≠ none ∨ k = uuidString env.uuid) := by
  refine ⟨?_, ?_, ?_⟩
  · intro k v hk
    apply handle_preserves imageStore q k v hk
    intro hgen
    rw [hfresh k hgen] at hk
    cases hk
  · intro functionId run
    exact ExecuteHandler_store imageStore functionId run
  · intro r env
    rcases LoadHandler_cases imageStore r env with ⟨_, hs⟩ | ⟨i, _, _, _, _, _, hs⟩
    · rw [hs]
      exact ⟨Nat.le_succ _, fun k hk => Or.inl hk⟩
    · rw [hs]
      refine ⟨mapSet_length _ _ _, ?_⟩
      intro k hk
      by_cases hkf : k = uuidString env.uuid
      · exact Or.inr hkf
      · rw [mapGet_mapSet_ne _ _ _ _ hkf] at hk
        exact Or.inl hk

theorem registry_step_invariant_witness :
    (∀ id, (Request.load samplePost sampleEnv2).generated = some id →
        mapGet sampleStore id = none) ∧
      ((∀ k v, mapGet sampleStore k = some v →
          mapGet (handle sampleStore (.load samplePost sampleEnv2)).2.1 k = some v) ∧
        (∀ functionId run, (ExecuteHandler sampleStore functionId run).2.1 = sampleStore) ∧
        (∀ r env, (LoadHandler sampleStore r env).2.1.length ≤ sampleStore.length + 1 ∧
          ∀ k, mapGet (LoadHandler sampleStore r env).2.1 k ≠ none →
            mapGet sampleStore k ≠ none ∨ k = uuidString env.uuid)) :=
  have hfresh : ∀ id, (Request.load samplePost sampleEnv2).generated = some id →
      mapGet sampleStore id = none := by
    intro id hid
    simp only [Request.generated, Option.some.injEq] at hid
    subst hid
    decide
  ⟨hfresh, registry_step_invariant sampleStore (.load samplePost sampleEnv2) hfresh⟩

/-- C9 fails on the code: an archive with the entry `../../evil.sh` is not
rejected; `ExtractZipFile` succeeds and creates and writes `/tmp/evil.sh`, which
is outside the extraction directory `/tmp/zip-extract1/extracted`, and the file
is still there after the cleanup of the load request. -/
theorem ExtractZipFile_writes_outside_root :
    ExtractZipFile sampleTraversalEnv "/tmp/zip-extract1/function.zip".toList
        "/tmp/zip-extract1".toList =
      (("/tmp/zip-extract1/extracted".toList, none),
        [.mkdir "/tmp/zip-extract1/extracted".toList true,
          .openReader "/tmp/zip-extract1/function.zip".toList true,
          .openFile "/tmp/evil.sh".toList true,
          .openEntry "../../evil.sh".toList true,
          .copyEntry "/tmp/evil.sh".toList true]) ∧
      Join ["/tmp/zip-extract1/extracted".toList, "../../evil.sh".toList] =
        "/tmp/evil.sh".toList ∧
      isUnder "/tmp/zip-extract1/extracted".toList "/tmp/evil.sh".toList = false ∧
      isUnder "/tmp/zip-extract1".toList "/tmp/evil.sh".toList = false ∧
      fsRun [] (LoadHandler [] samplePost sampleTraversalEnv).2.2 = ["/tmp/evil.sh".toList] := by
  decide

theorem LoadHandler_trace (imageStore : Store) (r : LoadRequest) (env : Env) :
    (LoadHandler imageStore r env).2.2 = [] ∨
      (LoadHandler imageStore r env).2.2 = [.mkdirTemp none] ∨
      ∃ tempDir, env.mkdirTemp = some tempDir ∧
        (LoadHandler imageStore r env).2.2 =
          .mkdirTemp (some tempDir) ::
            ((loadBody imageStore env tempDir).2.2 ++ [.removeAll tempDir env.removeAllOk]) := by
  unfold LoadHandler
  split
  · exact Or.inl rfl
  · split
    · exact Or.inl rfl
    · split
      · exact Or.inl rfl
      · split
        · exact Or.inr (Or.inl rfl)
        · rename_i tempDir htmp
          exact Or.inr (Or.inr ⟨tempDir, htmp, rfl⟩)

/-- C10: when a load request created the working directory `tempDir` and the
removal succeeds, the removal of `tempDir` is the last call the handler makes,
on every path, whatever response is returned; after the handler neither
`tempDir` nor any path below it remains. -/
theorem LoadHandler_cleanup (imageStore : Store) (r : LoadRequest) (env : Env) (tempDir : Str)
    (hcreated : (LoadHandler imageStore r env).2.2.head? = some (.mkdirTemp (some tempDir)))
    (hremoved : env.removeAllOk = true) :
    (∃ mid, (LoadHandler imageStore r env).2.2 =
        .mkdirTemp (some tempDir) :: (mid ++ [.removeAll tempDir true])) ∧
      ∀ fs : FS, tempDir ∉ fsRun fs (LoadHandler imageStore r env).2.2 ∧
        ∀ p ∈ fsRun fs (LoadHandler imageStore r env).2.2, isUnder tempDir p = false := by
  rcases LoadHandler_trace imageStore r env with h | h | ⟨d, _, h⟩
  · rw [h] at hcreated
    cases hcreated
  · rw [h] at hcreated
    cases hcreated
  · rw [h] at hcreated
    simp only [List.head?_cons, Option.some.injEq, Call.mkdirTemp.injEq] at hcreated
    subst hcreated
    rw [hremoved] at h
    have hunder : ∀ fs : FS, ∀ p ∈ fsRun fs (LoadHandler imageStore r env).2.2,
        isUnder d p = false := by
      intro fs p hp
      rw [h, ← List.cons_append, fsRun_append] at hp
      simp only [fsRun, List.foldl_cons, List.foldl_nil, fsStep, List.mem_filter] at hp
      simpa using hp.2
    refine ⟨⟨_, h⟩, fun fs => ⟨?_, hunder fs⟩⟩
    intro hmem
    have := hunder fs d hmem
    simp [isUnder] at this

theorem LoadHandler_cleanup_witness :
    (LoadHandler [] samplePost sampleTextEnv).2.2.head? =
        some (.mkdirTemp (some "/tmp/zip-extract1".toList)) ∧
      sampleTextEnv.removeAllOk = true ∧
      ((∃ mid, (LoadHandler [] samplePost sampleTextEnv).2.2 =
          .mkdirTemp (some "/tmp/zip-extract1".toList) ::
            (mid ++ [.removeAll "/tmp/zip-extract1".toList true])) ∧
        ∀ fs : FS, "/tmp/zip-extract1".toList ∉
            fsRun fs (LoadHandler [] samplePost sampleTextEnv).2.2 ∧
          ∀ p ∈ fsRun fs (LoadHandler [] samplePost sampleTextEnv).2.2,
            isUnder "/tmp/zip-extract1".toList p = false) :=
  ⟨by decide, rfl,
    LoadHandler_cleanup [] samplePost sampleTextEnv "/tmp/zip-extract1".toList (by decide) rfl⟩

end NablaFunctions
